import Mathlib

/-!
Verification of the stream combinators of `streams-rs`
(`src/expand.rs`, `src/latest_ready.rs`, `src/zip_biased.rs`).

An upstream stream is modelled as a trace: a function from the index of an
upstream poll to the outcome of that poll.  The outcome type mirrors the Rust
`Poll<Option<Item>>`: `Poll.pending` is NotReady, `Poll.ready none` is
Exhausted, `Poll.ready (some x)` is Produced x.  Fallible streams carry items
of type `Except ε α`, mirroring `Result<Ok, Error>`.

Each combinator becomes a step function from its explicit state (the struct
fields of the Rust type plus one cursor per upstream) to the downstream poll
outcome and the successor state.  A cursor advances exactly when the
corresponding upstream is polled, so "the upstream is never queried" is
expressed as the cursor staying put.  The `latest_ready` family loops inside a
single poll, so its loop takes explicit fuel and returns `none` when fuel runs
out (which never happens on the traces used in the theorems below).
-/

inductive Poll (α : Type) where
  | pending : Poll α
  | ready : α → Poll α
deriving DecidableEq, Repr

/-- A trace of upstream poll outcomes: entry `n` is what the upstream's
`poll_next` returns the `n`-th time it is called. -/
abbrev Trace (α : Type) : Type := Nat → Poll (Option α)

/-- Trace of a fallible upstream (`TryStream` with `Ok = α`, `Error = ε`). -/
abbrev TryTrace (ε α : Type) : Type := Trace (Except ε α)

/-- Build a trace from a finite list of outcomes followed by a constant tail. -/
def traceOf {α : Type} (l : List (Poll (Option α))) (tail : Poll (Option α)) :
    Trace α :=
  fun n => l.getD n tail

/-- A trace is fused when it keeps reporting Exhausted forever once it has
reported Exhausted. -/
def Fused {α : Type} (u : Trace α) : Prop :=
  ∀ m n : Nat, m ≤ n → u m = .ready none → u n = .ready none

/-! ### Expand (src/expand.rs, `Expand::poll_next`, lines 85-97) -/

/-- State of `Expand`: the `last_poll` field plus the upstream cursor. -/
structure ExpandState (α : Type) where
  pos : Nat
  last_poll : Poll (Option α)
deriving DecidableEq, Repr

/-- One call of `Expand::poll_next`: polls the upstream once, then matches
`(this_poll, last_poll)` exactly as the Rust code does. -/
def Expand.step {α : Type} (u : Trace α) (s : ExpandState α) :
    Poll (Option α) × ExpandState α :=
  match u s.pos, s.last_poll with
  | .pending, .pending => (.pending, ⟨s.pos + 1, .pending⟩)
  | .pending, .ready last_ready => (.ready last_ready, ⟨s.pos + 1, .ready last_ready⟩)
  | .ready newer, _ => (.ready newer, ⟨s.pos + 1, .ready newer⟩)

/-- State of `Expand` after `n` downstream polls, starting from `Expand::new`
(`last_poll = Poll::Pending`). -/
def Expand.runState {α : Type} (u : Trace α) : Nat → ExpandState α
  | 0 => ⟨0, .pending⟩
  | n + 1 => (Expand.step u (Expand.runState u n)).2

/-- Outcome of the `n`-th downstream poll of `Expand` (0-indexed). -/
def Expand.out {α : Type} (u : Trace α) (n : Nat) : Poll (Option α) :=
  (Expand.step u (Expand.runState u n)).1

/-- The last `ready` outcome among the first `n` entries of a trace
(`pending` if there is none): this is what `last_poll` holds. -/
def lastReady {α : Type} (u : Trace α) : Nat → Poll (Option α)
  | 0 => .pending
  | n + 1 =>
    match u n with
    | .pending => lastReady u n
    | .ready v => .ready v

/-- The most recently produced item among the first `n` entries of a trace. -/
def lastProduced {α : Type} (u : Trace α) : Nat → Option α
  | 0 => none
  | n + 1 =>
    match u n with
    | .ready (some x) => some x
    | _ => lastProduced u n

/-! ### TryExpand (src/expand.rs, `TryExpand::poll_next`, lines 107-130) -/

/-- State of `TryExpand`: the `terminated` flag, the `last_poll` field (which
stores the unwrapped `Ok` values, as in the Rust struct), and the cursor. -/
structure TryExpandState (α : Type) where
  pos : Nat
  terminated : Bool
  last_poll : Poll (Option α)
deriving DecidableEq, Repr

/-- One call of `TryExpand::poll_next`: an early return when `terminated`
(the upstream is not polled), otherwise one upstream poll and the four-way
match of the Rust code. -/
def TryExpand.step {ε α : Type} (u : TryTrace ε α) (s : TryExpandState α) :
    Poll (Option (Except ε α)) × TryExpandState α :=
  if s.terminated then (.ready none, s)
  else
    match u s.pos, s.last_poll with
    | .pending, .pending => (.pending, ⟨s.pos + 1, false, .pending⟩)
    | .pending, .ready last_ready =>
        (.ready (last_ready.map Except.ok), ⟨s.pos + 1, false, .ready last_ready⟩)
    | .ready (some (.ok newer)), _ =>
        (.ready (some (.ok newer)), ⟨s.pos + 1, false, .ready (some newer)⟩)
    | .ready none, _ => (.ready none, ⟨s.pos + 1, true, .ready none⟩)
    | .ready (some (.error e)), _ =>
        (.ready (some (.error e)), ⟨s.pos + 1, true, .ready none⟩)

/-- State of `TryExpand` after `n` downstream polls, starting from
`TryExpand::new` (`terminated = false`, `last_poll = Poll::Pending`). -/
def TryExpand.runState {ε α : Type} (u : TryTrace ε α) : Nat → TryExpandState α
  | 0 => ⟨0, false, .pending⟩
  | n + 1 => (TryExpand.step u (TryExpand.runState u n)).2

/-- Outcome of the `n`-th downstream poll of `TryExpand`. -/
def TryExpand.out {ε α : Type} (u : TryTrace ε α) (n : Nat) :
    Poll (Option (Except ε α)) :=
  (TryExpand.step u (TryExpand.runState u n)).1

/-! ### LatestReady (src/latest_ready.rs, `LatestReady::poll_next`, 54-64) -/

/-- The drain loop of `LatestReady::poll_next`, with explicit fuel: returns
the break value of the Rust loop together with the cursor after the loop, or
`none` if fuel ran out. -/
def LatestReady.loop {α : Type} (u : Trace α) :
    Nat → Nat → Poll (Option α) → Option (Poll (Option α) × Nat)
  | 0, _, _ => none
  | fuel + 1, pos, prev =>
    match u pos with
    | .pending => some (prev, pos + 1)
    | .ready none => some (.ready none, pos + 1)
    | .ready (some x) => LatestReady.loop u fuel (pos + 1) (.ready (some x))

/-- Upstream cursor of `LatestReady` after `n` downstream polls. -/
def LatestReady.runPos {α : Type} (u : Trace α) (fuel : Nat) : Nat → Option Nat
  | 0 => some 0
  | n + 1 =>
    (LatestReady.runPos u fuel n).bind fun pos =>
      (LatestReady.loop u fuel pos .pending).map Prod.snd

/-- Outcome of the `n`-th downstream poll of `LatestReady` (each poll starts
its loop with `prev_poll = Poll::Pending`). -/
def LatestReady.out {α : Type} (u : Trace α) (fuel n : Nat) :
    Option (Poll (Option α)) :=
  (LatestReady.runPos u fuel n).bind fun pos =>
    (LatestReady.loop u fuel pos .pending).map Prod.fst

/-! ### TryLatestReady (src/latest_ready.rs, `TryLatestReady::poll_next`, 73-83) -/

/-- The drain loop of `TryLatestReady::poll_next`: Exhausted and failed items
both break out of the loop immediately (`term @ (None | Some(Err(_)))`). -/
def TryLatestReady.loop {ε α : Type} (u : TryTrace ε α) :
    Nat → Nat → Poll (Option (Except ε α)) →
      Option (Poll (Option (Except ε α)) × Nat)
  | 0, _, _ => none
  | fuel + 1, pos, prev =>
    match u pos with
    | .pending => some (prev, pos + 1)
    | .ready none => some (.ready none, pos + 1)
    | .ready (some (.error e)) => some (.ready (some (.error e)), pos + 1)
    | .ready (some (.ok x)) =>
        TryLatestReady.loop u fuel (pos + 1) (.ready (some (.ok x)))

/-- Upstream cursor of `TryLatestReady` after `n` downstream polls. -/
def TryLatestReady.runPos {ε α : Type} (u : TryTrace ε α) (fuel : Nat) :
    Nat → Option Nat
  | 0 => some 0
  | n + 1 =>
    (TryLatestReady.runPos u fuel n).bind fun pos =>
      (TryLatestReady.loop u fuel pos .pending).map Prod.snd

/-- Outcome of the `n`-th downstream poll of `TryLatestReady`. -/
def TryLatestReady.out {ε α : Type} (u : TryTrace ε α) (fuel n : Nat) :
    Option (Poll (Option (Except ε α))) :=
  (TryLatestReady.runPos u fuel n).bind fun pos =>
    (TryLatestReady.loop u fuel pos .pending).map Prod.fst

/-! ### ZipBiased (src/zip_biased.rs, `ZipBiased::poll_next`, lines 75-94) -/

/-- State of `ZipBiased` / `TryZipBiased`: the `left_poll` slot plus one
cursor per upstream. -/
structure ZipState (α : Type) where
  lpos : Nat
  rpos : Nat
  left_poll : Poll (Option α)
deriving DecidableEq, Repr

/-- One call of `ZipBiased::poll_next`.  The Rust loop runs at most two
iterations (a `Pending` slot that receives a `Ready` left outcome falls
through to the `Ready` arms in the same call), so it is unrolled here.
`ready!` on an upstream returning Pending is an early `Poll::Pending` return,
with the slot as the Rust code left it at that point. -/
def ZipBiased.step {α β : Type} (l : Trace α) (r : Trace β) (s : ZipState α) :
    Poll (Option (α × β)) × ZipState α :=
  match s.left_poll with
  | .ready none => (.ready none, s)
  | .ready (some x) =>
    match r s.rpos with
    | .pending => (.pending, ⟨s.lpos, s.rpos + 1, .ready (some x)⟩)
    | .ready ropt => (.ready (ropt.map fun y => (x, y)), ⟨s.lpos, s.rpos + 1, .pending⟩)
  | .pending =>
    match l s.lpos with
    | .pending => (.pending, ⟨s.lpos + 1, s.rpos, .pending⟩)
    | .ready none => (.ready none, ⟨s.lpos + 1, s.rpos, .ready none⟩)
    | .ready (some x) =>
      match r s.rpos with
      | .pending => (.pending, ⟨s.lpos + 1, s.rpos + 1, .ready (some x)⟩)
      | .ready ropt => (.ready (ropt.map fun y => (x, y)), ⟨s.lpos + 1, s.rpos + 1, .pending⟩)

/-- State of `ZipBiased` after `n` downstream polls, starting from
`ZipBiased::new` (`left_poll = Poll::Pending`). -/
def ZipBiased.runState {α β : Type} (l : Trace α) (r : Trace β) :
    Nat → ZipState α
  | 0 => ⟨0, 0, .pending⟩
  | n + 1 => (ZipBiased.step l r (ZipBiased.runState l r n)).2

/-- Outcome of the `n`-th downstream poll of `ZipBiased`. -/
def ZipBiased.out {α β : Type} (l : Trace α) (r : Trace β) (n : Nat) :
    Poll (Option (α × β)) :=
  (ZipBiased.step l r (ZipBiased.runState l r n)).1

/-! ### TryZipBiased (src/zip_biased.rs, `TryZipBiased::poll_next`, 106-126) -/

/-- The right-poll arm of `TryZipBiased::poll_next`, entered with Ok item `x`
in the `left_poll` slot.  On a right failure the slot is left untouched (the
Rust code breaks without calling `take()`); on a right Ok outcome
`some_left.take()` leaves `Poll::Ready(None)` in the slot. -/
def TryZipBiased.pollRight {ε α β : Type} (r : TryTrace ε β) (x : α)
    (s : ZipState α) : Poll (Option (Except ε (α × β))) × ZipState α :=
  match r s.rpos with
  | .pending => (.pending, ⟨s.lpos, s.rpos + 1, .ready (some x)⟩)
  | .ready (some (.error e)) =>
      (.ready (some (.error e)), ⟨s.lpos, s.rpos + 1, .ready (some x)⟩)
  | .ready none => (.ready none, ⟨s.lpos, s.rpos + 1, .ready none⟩)
  | .ready (some (.ok y)) =>
      (.ready (some (.ok (x, y))), ⟨s.lpos, s.rpos + 1, .ready none⟩)

/-- One call of `TryZipBiased::poll_next`, unrolled like `ZipBiased.step`.
A left failure breaks out without touching the slot. -/
def TryZipBiased.step {ε α β : Type} (l : TryTrace ε α) (r : TryTrace ε β)
    (s : ZipState α) : Poll (Option (Except ε (α × β))) × ZipState α :=
  match s.left_poll with
  | .ready none => (.ready none, s)
  | .ready (some x) => TryZipBiased.pollRight r x s
  | .pending =>
    match l s.lpos with
    | .pending => (.pending, ⟨s.lpos + 1, s.rpos, .pending⟩)
    | .ready (some (.error e)) =>
        (.ready (some (.error e)), ⟨s.lpos + 1, s.rpos, .pending⟩)
    | .ready none => (.ready none, ⟨s.lpos + 1, s.rpos, .ready none⟩)
    | .ready (some (.ok x)) =>
        TryZipBiased.pollRight r x ⟨s.lpos + 1, s.rpos, .ready (some x)⟩

/-- State of `TryZipBiased` after `n` downstream polls. -/
def TryZipBiased.runState {ε α β : Type} (l : TryTrace ε α) (r : TryTrace ε β) :
    Nat → ZipState α
  | 0 => ⟨0, 0, .pending⟩
  | n + 1 => (TryZipBiased.step l r (TryZipBiased.runState l r n)).2

/-- Outcome of the `n`-th downstream poll of `TryZipBiased`. -/
def TryZipBiased.out {ε α β : Type} (l : TryTrace ε α) (r : TryTrace ε β)
    (n : Nat) : Poll (Option (Except ε (α × β))) :=
  (TryZipBiased.step l r (TryZipBiased.runState l r n)).1

/-! ### Helper lemmas: Expand -/

theorem Expand.step_pos {α : Type} (u : Trace α) (s : ExpandState α) :
    ((Expand.step u s).2).pos = s.pos + 1 := by
  unfold Expand.step
  cases h : u s.pos <;> cases h2 : s.last_poll <;> simp

theorem Expand.runState_pos {α : Type} (u : Trace α) (n : Nat) :
    (Expand.runState u n).pos = n := by
  induction n with
  | zero => rfl
  | succ n ih =>
    show ((Expand.step u (Expand.runState u n)).2).pos = n + 1
    rw [Expand.step_pos, ih]

theorem Expand.runState_last {α : Type} (u : Trace α) (n : Nat) :
    (Expand.runState u n).last_poll = lastReady u n := by
  induction n with
  | zero => rfl
  | succ n ih =>
    show ((Expand.step u (Expand.runState u n)).2).last_poll = lastReady u (n + 1)
    unfold Expand.step lastReady
    rw [Expand.runState_pos]
    cases h : u n with
    | pending => cases h2 : (Expand.runState u n).last_poll <;> simp_all
    | ready v => simp

/-- Master equation: the `n`-th downstream outcome of `Expand` as a function
of the `n`-th upstream outcome and the last `ready` outcome seen before it. -/
theorem Expand.out_eq {α : Type} (u : Trace α) (n : Nat) :
    Expand.out u n =
      match u n, lastReady u n with
      | .pending, .pending => .pending
      | .pending, .ready last_ready => .ready last_ready
      | .ready newer, _ => .ready newer := by
  unfold Expand.out Expand.step
  rw [Expand.runState_pos, Expand.runState_last]
  cases h : u n <;> cases h2 : lastReady u n <;> rfl

theorem lastReady_mem {α : Type} (u : Trace α) (n : Nat) (v : Option α)
    (h : lastReady u n = .ready v) : ∃ j, j < n ∧ u j = .ready v := by
  induction n with
  | zero => exact absurd h (by simp [lastReady])
  | succ n ih =>
    rw [lastReady] at h
    cases h2 : u n with
    | pending =>
      rw [h2] at h
      obtain ⟨j, hj, hju⟩ := ih h
      exact ⟨j, Nat.lt_succ_of_lt hj, hju⟩
    | ready w =>
      rw [h2] at h
      injection h with hw
      exact ⟨n, Nat.lt_succ_self n, hw ▸ h2⟩

theorem lastReady_of_no_exhaust {α : Type} (u : Trace α) (n : Nat)
    (h : ∀ j, j < n → u j ≠ .ready none) :
    lastReady u n =
      match lastProduced u n with
      | some v => .ready (some v)
      | none => .pending := by
  induction n with
  | zero => rfl
  | succ n ih =>
    rw [lastReady, lastProduced]
    have hn := h n (Nat.lt_succ_self n)
    cases h2 : u n with
    | pending => exact ih (fun j hj => h j (Nat.lt_succ_of_lt hj))
    | ready w =>
      cases w with
      | none => exact absurd h2 hn
      | some x => rfl

theorem lastReady_none_latch {α : Type} (u : Trace α) (j n : Nat)
    (hj : u j = .ready none) (hjn : j < n)
    (hmid : ∀ k, j < k → k < n → ∀ x, u k ≠ .ready (some x)) :
    lastReady u n = .ready none := by
  induction n with
  | zero => omega
  | succ n ih =>
    rw [lastReady]
    rcases Nat.lt_succ_iff_lt_or_eq.mp hjn with h | h
    · cases h2 : u n with
      | pending => exact ih h (fun k hk1 hk2 x => hmid k hk1 (Nat.lt_succ_of_lt hk2) x)
      | ready w =>
        cases w with
        | none => rfl
        | some x => exact absurd h2 (hmid n h (Nat.lt_succ_self n) x)
    · subst h; rw [hj]

theorem Expand.out_none_src {α : Type} (u : Trace α) (n : Nat)
    (h : Expand.out u n = .ready none) : ∃ j, j ≤ n ∧ u j = .ready none := by
  rw [Expand.out_eq] at h
  cases h2 : u n with
  | pending =>
    rw [h2] at h
    cases h3 : lastReady u n with
    | pending => rw [h3] at h; exact absurd h (by simp)
    | ready w =>
      rw [h3] at h
      injection h with hw
      obtain ⟨j, hj, hju⟩ := lastReady_mem u n w h3
      exact ⟨j, Nat.le_of_lt hj, hw ▸ hju⟩
  | ready w =>
    rw [h2] at h
    injection h with hw
    exact ⟨n, Nat.le_refl n, hw ▸ h2⟩

theorem Expand.out_of_none {α : Type} (u : Trace α) (n : Nat)
    (h : u n = .ready none) : Expand.out u n = .ready none := by
  rw [Expand.out_eq, h]

/-! ### Helper lemmas: TryExpand -/

theorem TryExpand.step_of_term {ε α : Type} (u : TryTrace ε α)
    (s : TryExpandState α) (h : s.terminated = true) :
    TryExpand.step u s = (.ready none, s) := by
  unfold TryExpand.step
  rw [h]
  rfl

theorem TryExpand.runState_frozen {ε α : Type} (u : TryTrace ε α) (n : Nat)
    (h : (TryExpand.runState u n).terminated = true) :
    ∀ d, TryExpand.runState u (n + d) = TryExpand.runState u n := by
  intro d
  induction d with
  | zero => rfl
  | succ d ih =>
    show (TryExpand.step u (TryExpand.runState u (n + d))).2 = _
    rw [ih, TryExpand.step_of_term u _ h]

theorem TryExpand.out_of_term {ε α : Type} (u : TryTrace ε α) (n : Nat)
    (h : (TryExpand.runState u n).terminated = true) :
    TryExpand.out u n = .ready none := by
  unfold TryExpand.out
  rw [TryExpand.step_of_term u _ h]
theorem TryExpand.step_of_not_term {ε α : Type} (u : TryTrace ε α)
    (s : TryExpandState α) (h : s.terminated = false) :
    TryExpand.step u s =
      match u s.pos, s.last_poll with
      | .pending, .pending => (.pending, ⟨s.pos + 1, false, .pending⟩)
      | .pending, .ready last_ready =>
          (.ready (last_ready.map Except.ok), ⟨s.pos + 1, false, .ready last_ready⟩)
      | .ready (some (.ok newer)), _ =>
          (.ready (some (.ok newer)), ⟨s.pos + 1, false, .ready (some newer)⟩)
      | .ready none, _ => (.ready none, ⟨s.pos + 1, true, .ready none⟩)
      | .ready (some (.error e)), _ =>
          (.ready (some (.error e)), ⟨s.pos + 1, true, .ready none⟩) := by
  unfold TryExpand.step
  rw [h, if_neg Bool.false_ne_true]

theorem TryExpand.not_term_last {ε α : Type} (u : TryTrace ε α) (n : Nat) :
    (TryExpand.runState u n).terminated = false →
      (TryExpand.runState u n).last_poll ≠ .ready none := by
  induction n with
  | zero => intro _ h; exact absurd h (by simp [TryExpand.runState])
  | succ n ih =>
    intro hterm h
    have hrun : TryExpand.runState u (n + 1) =
        (TryExpand.step u (TryExpand.runState u n)).2 := rfl
    rw [hrun] at hterm h
    cases hterm2 : (TryExpand.runState u n).terminated with
    | true =>
      rw [TryExpand.step_of_term u _ hterm2] at hterm
      rw [hterm2] at hterm
      exact absurd hterm (by simp)
    | false =>
      rw [TryExpand.step_of_not_term u _ hterm2] at h
      cases hu : u (TryExpand.runState u n).pos with
      | pending =>
        rw [hu] at h
        cases hl : (TryExpand.runState u n).last_poll with
        | pending => rw [hl] at h; exact absurd h (by simp)
        | ready last_ready =>
          rw [hl] at h
          simp only at h
          injection h with hw
          exact (ih hterm2) (hl.trans (by rw [hw]))
      | ready w =>
        rw [TryExpand.step_of_not_term u _ hterm2] at hterm
        match w with
        | none => rw [hu] at hterm; simp at hterm
        | some (.ok newer) => rw [hu] at h; simp at h
        | some (.error e) => rw [hu] at hterm; simp at hterm

theorem TryExpand.out_none_term {ε α : Type} (u : TryTrace ε α) (n : Nat)
    (h : TryExpand.out u n = .ready none) :
    (TryExpand.runState u (n + 1)).terminated = true := by
  have hrun : TryExpand.runState u (n + 1) =
      (TryExpand.step u (TryExpand.runState u n)).2 := rfl
  unfold TryExpand.out at h
  rw [hrun]
  cases hterm : (TryExpand.runState u n).terminated with
  | true => rw [TryExpand.step_of_term u _ hterm]; exact hterm
  | false =>
    rw [TryExpand.step_of_not_term u _ hterm] at h ⊢
    cases hu : u (TryExpand.runState u n).pos with
    | pending =>
      rw [hu] at h
      cases hl : (TryExpand.runState u n).last_poll with
      | pending => rw [hl] at h; exact absurd h (by simp)
      | ready last_ready =>
        rw [hl] at h
        simp only at h
        injection h with hw
        have hnone : last_ready = none := by
          cases last_ready with
          | none => rfl
          | some x => simp at hw
        exact absurd (hl.trans (by rw [hnone]))
          (TryExpand.not_term_last u n hterm)
    | ready w =>
      cases w with
      | none => rfl
      | some res =>
        cases res with
        | ok newer => rw [hu] at h; simp at h
        | error e2 => rfl

theorem TryExpand.out_err_term {ε α : Type} (u : TryTrace ε α) (n : Nat)
    (e : ε) (h : TryExpand.out u n = .ready (some (.error e))) :
    (TryExpand.runState u (n + 1)).terminated = true := by
  have hrun : TryExpand.runState u (n + 1) =
      (TryExpand.step u (TryExpand.runState u n)).2 := rfl
  unfold TryExpand.out at h
  rw [hrun]
  cases hterm : (TryExpand.runState u n).terminated with
  | true => rw [TryExpand.step_of_term u _ hterm]; exact hterm
  | false =>
    rw [TryExpand.step_of_not_term u _ hterm] at h ⊢
    cases hu : u (TryExpand.runState u n).pos with
    | pending =>
      rw [hu] at h
      cases hl : (TryExpand.runState u n).last_poll with
      | pending => rw [hl] at h; exact absurd h (by simp)
      | ready last_ready =>
        rw [hl] at h
        simp only at h
        injection h with hw
        cases last_ready with
        | none => simp at hw
        | some x => simp at hw
    | ready w =>
      cases w with
      | none => rfl
      | some res =>
        cases res with
        | ok newer => rw [hu] at h; simp at h
        | error e2 => rfl

theorem TryExpand.out_err_src {ε α : Type} (u : TryTrace ε α) (n : Nat)
    (e : ε) (h : TryExpand.out u n = .ready (some (.error e))) :
    u ((TryExpand.runState u n).pos) = .ready (some (.error e)) := by
  unfold TryExpand.out at h
  cases hterm : (TryExpand.runState u n).terminated with
  | true => rw [TryExpand.step_of_term u _ hterm] at h; exact absurd h (by simp)
  | false =>
    rw [TryExpand.step_of_not_term u _ hterm] at h
    cases hu : u (TryExpand.runState u n).pos with
    | pending =>
      rw [hu] at h
      cases hl : (TryExpand.runState u n).last_poll with
      | pending => rw [hl] at h; exact absurd h (by simp)
      | ready last_ready =>
        rw [hl] at h
        simp only at h
        injection h with hw
        cases last_ready with
        | none => simp at hw
        | some x => simp at hw
    | ready w =>
      cases w with
      | none => rw [hu] at h; simp at h
      | some res =>
        cases res with
        | ok newer => rw [hu] at h; simp at h
        | error e2 =>
          rw [hu] at h
          injection h with hw
          simp at hw
          rw [hw]

theorem TryExpand.out_eventually_none {ε α : Type} (u : TryTrace ε α)
    (n m : Nat) (hterm : (TryExpand.runState u n).terminated = true)
    (hnm : n ≤ m) : TryExpand.out u m = .ready none := by
  obtain ⟨d, rfl⟩ := Nat.exists_eq_add_of_le hnm
  exact TryExpand.out_of_term u _
    ((TryExpand.runState_frozen u n hterm d).symm ▸ hterm)

/-! ### Helper lemmas: LatestReady / TryLatestReady -/

theorem LatestReady.loop_of_none {α : Type} (u : Trace α) (fuel pos : Nat)
    (hf : 1 ≤ fuel) (h : u pos = .ready none) (prev : Poll (Option α)) :
    LatestReady.loop u fuel pos prev = some (.ready none, pos + 1) := by
  match fuel, hf with
  | fuel + 1, _ => rw [LatestReady.loop, h]

theorem LatestReady.runPos_succ {α : Type} (u : Trace α) (fuel n : Nat) :
    LatestReady.runPos u fuel (n + 1) =
      (LatestReady.runPos u fuel n).bind fun pos =>
        (LatestReady.loop u fuel pos .pending).map Prod.snd := rfl

theorem LatestReady.out_some_elim {α : Type} (u : Trace α) (fuel n : Nat)
    (res : Poll (Option α)) (h : LatestReady.out u fuel n = some res) :
    ∃ pos q, LatestReady.runPos u fuel n = some pos ∧
      LatestReady.loop u fuel pos .pending = some (res, q) ∧
      LatestReady.runPos u fuel (n + 1) = some q := by
  unfold LatestReady.out at h
  cases hrun : LatestReady.runPos u fuel n with
  | none => rw [hrun] at h; exact absurd h (by simp)
  | some pos =>
    rw [hrun, Option.some_bind] at h
    cases hloop : LatestReady.loop u fuel pos .pending with
    | none => rw [hloop] at h; exact absurd h (by simp)
    | some pr =>
      rw [hloop] at h
      obtain ⟨r, q⟩ := pr
      simp at h
      subst h
      refine ⟨pos, q, rfl, hloop, ?_⟩
      rw [LatestReady.runPos_succ, hrun, Option.some_bind, hloop]
      rfl

theorem LatestReady.loop_burst_pending {α : Type} (u : Trace α) (f : Nat → α) :
    ∀ (m pos fuel : Nat) (prev : Poll (Option α)),
      (∀ j, pos ≤ j → j < pos + m → u j = .ready (some (f j))) →
      u (pos + m) = .pending → m < fuel →
      LatestReady.loop u fuel pos prev =
        some ((if m = 0 then prev else .ready (some (f (pos + m - 1)))),
          pos + m + 1) := by
  intro m
  induction m with
  | zero =>
    intro pos fuel prev _ hp hf
    match fuel, hf with
    | fuel + 1, _ =>
      rw [LatestReady.loop]
      rw [show pos + 0 = pos from rfl] at hp
      rw [hp]
      simp
  | succ m ih =>
    intro pos fuel prev hburst hp hf
    match fuel, hf with
    | fuel + 1, hf =>
      have h0 : u pos = .ready (some (f pos)) :=
        hburst pos (Nat.le_refl pos) (by omega)
      have hstep : LatestReady.loop u (fuel + 1) pos prev =
          LatestReady.loop u fuel (pos + 1) (.ready (some (f pos))) := by
        rw [LatestReady.loop, h0]
      rw [hstep, ih (pos + 1) fuel (.ready (some (f pos)))
        (fun j hj1 hj2 => hburst j (by omega) (by omega))
        (by rw [show pos + 1 + m = pos + (m + 1) by omega]; exact hp)
        (by omega)]
      rcases Nat.eq_zero_or_pos m with hm | hm
      · subst hm; simp
      · rw [if_neg (by omega : ¬ m = 0), if_neg (Nat.succ_ne_zero m)]
        rw [show pos + 1 + m - 1 = pos + (m + 1) - 1 by omega,
          show pos + 1 + m + 1 = pos + (m + 1) + 1 by omega]

theorem LatestReady.loop_burst_exhaust {α : Type} (u : Trace α) (f : Nat → α) :
    ∀ (m pos fuel : Nat) (prev : Poll (Option α)),
      (∀ j, pos ≤ j → j < pos + m → u j = .ready (some (f j))) →
      u (pos + m) = .ready none → m < fuel →
      LatestReady.loop u fuel pos prev = some (.ready none, pos + m + 1) := by
  intro m
  induction m with
  | zero =>
    intro pos fuel prev _ hp hf
    match fuel, hf with
    | fuel + 1, _ =>
      rw [LatestReady.loop]
      rw [show pos + 0 = pos from rfl] at hp
      rw [hp]
  | succ m ih =>
    intro pos fuel prev hburst hp hf
    match fuel, hf with
    | fuel + 1, hf =>
      have h0 : u pos = .ready (some (f pos)) :=
        hburst pos (Nat.le_refl pos) (by omega)
      have hstep : LatestReady.loop u (fuel + 1) pos prev =
          LatestReady.loop u fuel (pos + 1) (.ready (some (f pos))) := by
        rw [LatestReady.loop, h0]
      rw [hstep, ih (pos + 1) fuel (.ready (some (f pos)))
        (fun j hj1 hj2 => hburst j (by omega) (by omega))
        (by rw [show pos + 1 + m = pos + (m + 1) by omega]; exact hp)
        (by omega)]
      rw [show pos + 1 + m + 1 = pos + (m + 1) + 1 by omega]

theorem LatestReady.loop_none_src {α : Type} (u : Trace α) :
    ∀ (fuel pos : Nat) (prev : Poll (Option α)), prev ≠ .ready none →
      ∀ q, LatestReady.loop u fuel pos prev = some (.ready none, q) →
        u (q - 1) = .ready none ∧ pos < q := by
  intro fuel
  induction fuel with
  | zero =>
    intro pos prev hprev q h
    rw [LatestReady.loop] at h
    exact absurd h (by simp)
  | succ fuel ih =>
    intro pos prev hprev q h
    rw [LatestReady.loop] at h
    cases hu : u pos with
    | pending =>
      rw [hu] at h
      simp at h
      exact absurd h.1 hprev
    | ready w =>
      cases w with
      | none =>
        rw [hu] at h
        simp at h
        refine ⟨?_, by omega⟩
        rw [← h]
        simpa using hu
      | some x =>
        rw [hu] at h
        obtain ⟨h1, h2⟩ := ih (pos + 1) (.ready (some x)) (by simp) q h
        exact ⟨h1, by omega⟩

theorem LatestReady.exhaust_forever {α : Type} (u : Trace α) (fuel : Nat)
    (hfuel : 1 ≤ fuel) (hF : Fused u) (n pos : Nat)
    (hrun : LatestReady.runPos u fuel n = some pos)
    (hpos : u pos = .ready none) :
    ∀ d, LatestReady.runPos u fuel (n + d) = some (pos + d) ∧
      LatestReady.out u fuel (n + d) = some (.ready none) := by
  intro d
  induction d with
  | zero =>
    refine ⟨by simpa using hrun, ?_⟩
    unfold LatestReady.out
    rw [show n + 0 = n from rfl, hrun, Option.some_bind,
      LatestReady.loop_of_none u fuel pos hfuel hpos]
    rfl
  | succ d ih =>
    have hnext : u (pos + d) = .ready none := hF pos (pos + d) (by omega) hpos
    have hrun2 : LatestReady.runPos u fuel (n + (d + 1)) = some (pos + (d + 1)) := by
      rw [show n + (d + 1) = (n + d) + 1 by omega, LatestReady.runPos_succ, ih.1,
        Option.some_bind, LatestReady.loop_of_none u fuel (pos + d) hfuel hnext]
      rfl
    refine ⟨hrun2, ?_⟩
    have hnext2 : u (pos + (d + 1)) = .ready none := hF pos _ (by omega) hpos
    unfold LatestReady.out
    rw [hrun2, Option.some_bind,
      LatestReady.loop_of_none u fuel (pos + (d + 1)) hfuel hnext2]
    rfl

theorem LatestReady.none_forever {α : Type} (u : Trace α) (fuel : Nat)
    (hfuel : 1 ≤ fuel) (hF : Fused u) (n m : Nat)
    (h : LatestReady.out u fuel n = some (.ready none)) (hnm : n ≤ m) :
    LatestReady.out u fuel m = some (.ready none) := by
  rcases Nat.eq_or_lt_of_le hnm with rfl | hlt
  · exact h
  obtain ⟨pos, q, hrun, hloop, hrun2⟩ :=
    LatestReady.out_some_elim u fuel n _ h
  obtain ⟨hq, hposq⟩ :=
    LatestReady.loop_none_src u fuel pos .pending (by simp) q hloop
  have hq2 : u q = .ready none := hF (q - 1) q (by omega) hq
  obtain ⟨d, rfl⟩ := Nat.exists_eq_add_of_le (Nat.succ_le_of_lt hlt)
  exact (LatestReady.exhaust_forever u fuel hfuel hF (n + 1) q hrun2 hq2 d).2

theorem TryLatestReady.loop_of_none_try {ε α : Type} (u : TryTrace ε α)
    (fuel pos : Nat) (hf : 1 ≤ fuel) (h : u pos = .ready none)
    (prev : Poll (Option (Except ε α))) :
    TryLatestReady.loop u fuel pos prev = some (.ready none, pos + 1) := by
  match fuel, hf with
  | fuel + 1, _ => rw [TryLatestReady.loop, h]

theorem TryLatestReady.runPos_succ_try {ε α : Type} (u : TryTrace ε α)
    (fuel n : Nat) :
    TryLatestReady.runPos u fuel (n + 1) =
      (TryLatestReady.runPos u fuel n).bind fun pos =>
        (TryLatestReady.loop u fuel pos .pending).map Prod.snd := rfl

theorem TryLatestReady.out_some_elim_try {ε α : Type} (u : TryTrace ε α)
    (fuel n : Nat) (res : Poll (Option (Except ε α)))
    (h : TryLatestReady.out u fuel n = some res) :
    ∃ pos q, TryLatestReady.runPos u fuel n = some pos ∧
      TryLatestReady.loop u fuel pos .pending = some (res, q) ∧
      TryLatestReady.runPos u fuel (n + 1) = some q := by
  unfold TryLatestReady.out at h
  cases hrun : TryLatestReady.runPos u fuel n with
  | none => rw [hrun] at h; exact absurd h (by simp)
  | some pos =>
    rw [hrun, Option.some_bind] at h
    cases hloop : TryLatestReady.loop u fuel pos .pending with
    | none => rw [hloop] at h; exact absurd h (by simp)
    | some pr =>
      rw [hloop] at h
      obtain ⟨r, q⟩ := pr
      simp at h
      subst h
      refine ⟨pos, q, rfl, hloop, ?_⟩
      rw [TryLatestReady.runPos_succ_try, hrun, Option.some_bind, hloop]
      rfl

theorem TryLatestReady.loop_none_src_try {ε α : Type} (u : TryTrace ε α) :
    ∀ (fuel pos : Nat) (prev : Poll (Option (Except ε α))),
      prev ≠ .ready none →
      ∀ q, TryLatestReady.loop u fuel pos prev = some (.ready none, q) →
        u (q - 1) = .ready none ∧ pos < q := by
  intro fuel
  induction fuel with
  | zero =>
    intro pos prev hprev q h
    rw [TryLatestReady.loop] at h
    exact absurd h (by simp)
  | succ fuel ih =>
    intro pos prev hprev q h
    rw [TryLatestReady.loop] at h
    cases hu : u pos with
    | pending =>
      rw [hu] at h
      simp at h
      exact absurd h.1 hprev
    | ready w =>
      cases w with
      | none =>
        rw [hu] at h
        simp at h
        refine ⟨?_, by omega⟩
        rw [← h]
        simpa using hu
      | some res =>
        cases res with
        | error e =>
          rw [hu] at h
          simp at h
        | ok x =>
          rw [hu] at h
          obtain ⟨h1, h2⟩ := ih (pos + 1) (.ready (some (.ok x))) (by simp) q h
          exact ⟨h1, by omega⟩

theorem TryLatestReady.exhaust_forever_try {ε α : Type} (u : TryTrace ε α)
    (fuel : Nat) (hfuel : 1 ≤ fuel) (hF : Fused u) (n pos : Nat)
    (hrun : TryLatestReady.runPos u fuel n = some pos)
    (hpos : u pos = .ready none) :
    ∀ d, TryLatestReady.runPos u fuel (n + d) = some (pos + d) ∧
      TryLatestReady.out u fuel (n + d) = some (.ready none) := by
  intro d
  induction d with
  | zero =>
    refine ⟨by simpa using hrun, ?_⟩
    unfold TryLatestReady.out
    rw [show n + 0 = n from rfl, hrun, Option.some_bind,
      TryLatestReady.loop_of_none_try u fuel pos hfuel hpos]
    rfl
  | succ d ih =>
    have hnext : u (pos + d) = .ready none := hF pos (pos + d) (by omega) hpos
    have hrun2 : TryLatestReady.runPos u fuel (n + (d + 1)) =
        some (pos + (d + 1)) := by
      rw [show n + (d + 1) = (n + d) + 1 by omega, TryLatestReady.runPos_succ_try,
        ih.1, Option.some_bind,
        TryLatestReady.loop_of_none_try u fuel (pos + d) hfuel hnext]
      rfl
    refine ⟨hrun2, ?_⟩
    have hnext2 : u (pos + (d + 1)) = .ready none := hF pos _ (by omega) hpos
    unfold TryLatestReady.out
    rw [hrun2, Option.some_bind,
      TryLatestReady.loop_of_none_try u fuel (pos + (d + 1)) hfuel hnext2]
    rfl

theorem TryLatestReady.none_forever_try {ε α : Type} (u : TryTrace ε α)
    (fuel : Nat) (hfuel : 1 ≤ fuel) (hF : Fused u) (n m : Nat)
    (h : TryLatestReady.out u fuel n = some (.ready none)) (hnm : n ≤ m) :
    TryLatestReady.out u fuel m = some (.ready none) := by
  rcases Nat.eq_or_lt_of_le hnm with rfl | hlt
  · exact h
  obtain ⟨pos, q, hrun, hloop, hrun2⟩ :=
    TryLatestReady.out_some_elim_try u fuel n _ h
  obtain ⟨hq, hposq⟩ :=
    TryLatestReady.loop_none_src_try u fuel pos .pending (by simp) q hloop
  have hq2 : u q = .ready none := hF (q - 1) q (by omega) hq
  obtain ⟨d, rfl⟩ := Nat.exists_eq_add_of_le (Nat.succ_le_of_lt hlt)
  exact (TryLatestReady.exhaust_forever_try u fuel hfuel hF (n + 1) q hrun2 hq2 d).2

theorem TryLatestReady.loop_err_src {ε α : Type} (u : TryTrace ε α) :
    ∀ (fuel pos : Nat) (prev : Poll (Option (Except ε α))),
      (∀ e : ε, prev ≠ .ready (some (.error e))) →
      ∀ (e : ε) (q : Nat),
        TryLatestReady.loop u fuel pos prev =
          some (.ready (some (.error e)), q) →
        u (q - 1) = .ready (some (.error e)) := by
  intro fuel
  induction fuel with
  | zero =>
    intro pos prev hprev e q h
    rw [TryLatestReady.loop] at h
    exact absurd h (by simp)
  | succ fuel ih =>
    intro pos prev hprev e q h
    rw [TryLatestReady.loop] at h
    cases hu : u pos with
    | pending =>
      rw [hu] at h
      simp at h
      exact absurd h.1 (hprev e)
    | ready w =>
      cases w with
      | none =>
        rw [hu] at h
        simp at h
      | some res =>
        cases res with
        | error e2 =>
          rw [hu] at h
          simp at h
          obtain ⟨he, hq⟩ := h
          subst he
          rw [← hq]
          simpa using hu
        | ok x =>
          rw [hu] at h
          exact ih (pos + 1) (.ready (some (.ok x))) (by simp) e q h

/-! ### Helper lemmas: ZipBiased -/

theorem ZipBiased.step_slotNone {α β : Type} (l : Trace α) (r : Trace β)
    (s : ZipState α) (h : s.left_poll = .ready none) :
    ZipBiased.step l r s = (.ready none, s) := by
  unfold ZipBiased.step
  rw [h]

theorem ZipBiased.step_slotSome_rpending {α β : Type} (l : Trace α)
    (r : Trace β) (s : ZipState α) (x : α) (h : s.left_poll = .ready (some x))
    (hr : r s.rpos = .pending) :
    ZipBiased.step l r s = (.pending, ⟨s.lpos, s.rpos + 1, .ready (some x)⟩) := by
  unfold ZipBiased.step
  rw [h, hr]

theorem ZipBiased.step_slotSome_rready {α β : Type} (l : Trace α)
    (r : Trace β) (s : ZipState α) (x : α) (ropt : Option β)
    (h : s.left_poll = .ready (some x)) (hr : r s.rpos = .ready ropt) :
    ZipBiased.step l r s =
      (.ready (ropt.map fun y => (x, y)), ⟨s.lpos, s.rpos + 1, .pending⟩) := by
  unfold ZipBiased.step
  rw [h, hr]

theorem ZipBiased.step_slotSome_lpos {α β : Type} (l : Trace α) (r : Trace β)
    (s : ZipState α) (x : α) (h : s.left_poll = .ready (some x)) :
    (ZipBiased.step l r s).2.lpos = s.lpos := by
  cases hr : r s.rpos with
  | pending => rw [ZipBiased.step_slotSome_rpending l r s x h hr]
  | ready ropt => rw [ZipBiased.step_slotSome_rready l r s x ropt h hr]

theorem ZipBiased.step_slotPending_lpos {α β : Type} (l : Trace α)
    (r : Trace β) (s : ZipState α) (h : s.left_poll = .pending) :
    (ZipBiased.step l r s).2.lpos = s.lpos + 1 := by
  unfold ZipBiased.step
  rw [h]
  cases hl : l s.lpos with
  | pending => rfl
  | ready w =>
    cases w with
    | none => rfl
    | some x =>
      cases hr : r s.rpos with
      | pending => rfl
      | ready ropt => rfl

theorem ZipBiased.runState_frozen_zip {α β : Type} (l : Trace α) (r : Trace β)
    (n : Nat) (h : (ZipBiased.runState l r n).left_poll = .ready none) :
    ∀ d, ZipBiased.runState l r (n + d) = ZipBiased.runState l r n := by
  intro d
  induction d with
  | zero => rfl
  | succ d ih =>
    show (ZipBiased.step l r (ZipBiased.runState l r (n + d))).2 = _
    rw [ih, ZipBiased.step_slotNone l r _ h]

theorem ZipBiased.out_slotNone {α β : Type} (l : Trace α) (r : Trace β)
    (n : Nat) (h : (ZipBiased.runState l r n).left_poll = .ready none) :
    ∀ m, n ≤ m → ZipBiased.out l r m = .ready none := by
  intro m hm
  obtain ⟨d, rfl⟩ := Nat.exists_eq_add_of_le hm
  unfold ZipBiased.out
  rw [ZipBiased.runState_frozen_zip l r n h d, ZipBiased.step_slotNone l r _ h]

theorem ZipBiased.step_rpos {α β : Type} (l : Trace α) (r : Trace β)
    (s : ZipState α) :
    (ZipBiased.step l r s).2.rpos = s.rpos ∨
      (ZipBiased.step l r s).2.rpos = s.rpos + 1 := by
  unfold ZipBiased.step
  cases hsl : s.left_poll with
  | pending =>
    cases hl : l s.lpos with
    | pending => left; rfl
    | ready w =>
      cases w with
      | none => left; rfl
      | some x =>
        cases hr : r s.rpos with
        | pending => right; rfl
        | ready ropt => right; rfl
  | ready w =>
    cases w with
    | none => left; rfl
    | some x =>
      cases hr : r s.rpos with
      | pending => right; rfl
      | ready ropt => right; rfl

theorem ZipBiased.runState_rpos_mono {α β : Type} (l : Trace α) (r : Trace β)
    (n m : Nat) (h : n ≤ m) :
    (ZipBiased.runState l r n).rpos ≤ (ZipBiased.runState l r m).rpos := by
  obtain ⟨d, rfl⟩ := Nat.exists_eq_add_of_le h
  clear h
  induction d with
  | zero => exact Nat.le_refl _
  | succ d ih =>
    refine ih.trans ?_
    show _ ≤ (ZipBiased.step l r (ZipBiased.runState l r (n + d))).2.rpos
    rcases ZipBiased.step_rpos l r (ZipBiased.runState l r (n + d)) with h | h <;> omega

theorem ZipBiased.step_item_src {α β : Type} (l : Trace α) (r : Trace β)
    (s s2 : ZipState α) (p : α × β)
    (h : ZipBiased.step l r s = (.ready (some p), s2)) :
    r s.rpos = .ready (some p.2) := by
  unfold ZipBiased.step at h
  cases hsl : s.left_poll with
  | pending =>
    rw [hsl] at h
    cases hl : l s.lpos with
    | pending => rw [hl] at h; simp at h
    | ready w =>
      cases w with
      | none => rw [hl] at h; simp at h
      | some x =>
        rw [hl] at h
        cases hr : r s.rpos with
        | pending => rw [hr] at h; simp at h
        | ready ropt =>
          rw [hr] at h
          simp at h
          obtain ⟨y, hy, hxy⟩ := h.1
          rw [hy, ← hxy]
  | ready w =>
    cases w with
    | none => rw [hsl] at h; simp at h
    | some x =>
      rw [hsl] at h
      cases hr : r s.rpos with
      | pending => rw [hr] at h; simp at h
      | ready ropt =>
        rw [hr] at h
        simp at h
        obtain ⟨y, hy, hxy⟩ := h.1
        rw [hy, ← hxy]

theorem ZipBiased.step_none_src {α β : Type} (l : Trace α) (r : Trace β)
    (s s2 : ZipState α) (h : ZipBiased.step l r s = (.ready none, s2)) :
    s2.left_poll = .ready none ∨
      (r s.rpos = .ready none ∧ s2.rpos = s.rpos + 1) := by
  unfold ZipBiased.step at h
  cases hsl : s.left_poll with
  | pending =>
    rw [hsl] at h
    cases hl : l s.lpos with
    | pending => rw [hl] at h; exact absurd (congrArg Prod.fst h) (by simp)
    | ready w =>
      cases w with
      | none =>
        rw [hl] at h
        rw [Prod.mk.injEq] at h
        left
        rw [← h.2]
      | some x =>
        rw [hl] at h
        cases hr : r s.rpos with
        | pending => rw [hr] at h; exact absurd (congrArg Prod.fst h) (by simp)
        | ready ropt =>
          rw [hr] at h
          rw [Prod.mk.injEq] at h
          cases ropt with
          | some y => exact absurd h.1 (by simp)
          | none =>
            right
            refine ⟨rfl, ?_⟩
            rw [← h.2]
  | ready w =>
    cases w with
    | none =>
      rw [hsl] at h
      rw [Prod.mk.injEq] at h
      left
      rw [← h.2, hsl]
    | some x =>
      rw [hsl] at h
      cases hr : r s.rpos with
      | pending => rw [hr] at h; exact absurd (congrArg Prod.fst h) (by simp)
      | ready ropt =>
        rw [hr] at h
        rw [Prod.mk.injEq] at h
        cases ropt with
        | some y => exact absurd h.1 (by simp)
        | none =>
          right
          refine ⟨rfl, ?_⟩
          rw [← h.2]

theorem ZipBiased.step_rpos_advance {α β : Type} (l : Trace α) (r : Trace β)
    (s : ZipState α) (h : (ZipBiased.step l r s).2.rpos ≠ s.rpos) :
    (∃ x, s.left_poll = .ready (some x)) ∨
      (s.left_poll = .pending ∧ ∃ x, l s.lpos = .ready (some x)) := by
  cases hsl : s.left_poll with
  | pending =>
    cases hl : l s.lpos with
    | pending =>
      exfalso
      apply h
      unfold ZipBiased.step
      rw [hsl, hl]
    | ready w =>
      cases w with
      | none =>
        exfalso
        apply h
        unfold ZipBiased.step
        rw [hsl, hl]
      | some x => exact Or.inr ⟨rfl, x, rfl⟩
  | ready w =>
    cases w with
    | none =>
      exfalso
      apply h
      rw [ZipBiased.step_slotNone l r s hsl]
    | some x => exact Or.inl ⟨x, rfl⟩

theorem ZipBiased.left_empty {α β : Type} (l : Trace α) (r : Trace β)
    (h : l 0 = .ready none) :
    ∀ n, ZipBiased.out l r n = .ready none ∧
      (ZipBiased.runState l r n).rpos = 0 := by
  have h1 : ZipBiased.runState l r 1 = ⟨1, 0, .ready none⟩ := by
    show (ZipBiased.step l r ⟨0, 0, .pending⟩).2 = _
    unfold ZipBiased.step
    rw [show (⟨0, 0, .pending⟩ : ZipState α).left_poll = .pending from rfl]
    simp only
    rw [show l (⟨0, 0, (.pending : Poll (Option α))⟩ : ZipState α).lpos = .ready none from h]
  have hfrozen : ∀ d, ZipBiased.runState l r (1 + d) = ⟨1, 0, .ready none⟩ := by
    intro d
    rw [ZipBiased.runState_frozen_zip l r 1 (by rw [h1]) d, h1]
  intro n
  cases n with
  | zero =>
    refine ⟨?_, rfl⟩
    unfold ZipBiased.out
    show (ZipBiased.step l r ⟨0, 0, .pending⟩).1 = _
    unfold ZipBiased.step
    simp only
    rw [show l (0 : Nat) = .ready none from h]
  | succ n =>
    have hn : ZipBiased.runState l r (n + 1) = ⟨1, 0, .ready none⟩ := by
      rw [show n + 1 = 1 + n by omega]
      exact hfrozen n
    refine ⟨?_, by rw [hn]⟩
    unfold ZipBiased.out
    rw [hn, ZipBiased.step_slotNone l r _ rfl]

theorem ZipBiased.none_no_item_after {α β : Type} (l : Trace α) (r : Trace β)
    (hF : Fused r) (n m : Nat) (h : ZipBiased.out l r n = .ready none)
    (hnm : n ≤ m) :
    ZipBiased.out l r m = .ready none ∨ ZipBiased.out l r m = .pending := by
  rcases Nat.eq_or_lt_of_le hnm with rfl | hlt
  · exact Or.inl h
  have hpair : ZipBiased.step l r (ZipBiased.runState l r n) =
      (ZipBiased.out l r n, ZipBiased.runState l r (n + 1)) := rfl
  rw [h] at hpair
  rcases ZipBiased.step_none_src l r _ _ hpair with hslot | ⟨hr, hrpos⟩
  · exact Or.inl (ZipBiased.out_slotNone l r (n + 1) hslot m hlt)
  · cases hout : ZipBiased.out l r m with
    | pending => exact Or.inr rfl
    | ready w =>
      cases w with
      | none => exact Or.inl rfl
      | some p =>
        exfalso
        have hpair2 : ZipBiased.step l r (ZipBiased.runState l r m) =
            (ZipBiased.out l r m, ZipBiased.runState l r (m + 1)) := rfl
        rw [hout] at hpair2
        have hsrc := ZipBiased.step_item_src l r _ _ p hpair2
        have hge : (ZipBiased.runState l r n).rpos + 1 ≤
            (ZipBiased.runState l r m).rpos := by
          have := ZipBiased.runState_rpos_mono l r (n + 1) m hlt
          omega
        have hnone : r (ZipBiased.runState l r m).rpos = .ready none :=
          hF _ _ (by omega) hr
        rw [hnone] at hsrc
        simp at hsrc

/-! ### Helper lemmas: TryZipBiased -/

theorem TryZipBiased.step_slotNone_try {ε α β : Type} (l : TryTrace ε α)
    (r : TryTrace ε β) (s : ZipState α) (h : s.left_poll = .ready none) :
    TryZipBiased.step l r s = (.ready none, s) := by
  unfold TryZipBiased.step
  rw [h]

theorem TryZipBiased.pollRight_lpos_rpos {ε α β : Type} (r : TryTrace ε β)
    (x : α) (s : ZipState α) :
    (TryZipBiased.pollRight r x s).2.lpos = s.lpos ∧
      (TryZipBiased.pollRight r x s).2.rpos = s.rpos + 1 := by
  unfold TryZipBiased.pollRight
  cases hr : r s.rpos with
  | pending => exact ⟨rfl, rfl⟩
  | ready w =>
    cases w with
    | none => exact ⟨rfl, rfl⟩
    | some res =>
      cases res with
      | ok y => exact ⟨rfl, rfl⟩
      | error e => exact ⟨rfl, rfl⟩

theorem TryZipBiased.step_lerr {ε α β : Type} (l : TryTrace ε α)
    (r : TryTrace ε β) (s : ZipState α) (e : ε)
    (h : s.left_poll = .pending) (hl : l s.lpos = .ready (some (.error e))) :
    TryZipBiased.step l r s =
      (.ready (some (.error e)), ⟨s.lpos + 1, s.rpos, .pending⟩) := by
  unfold TryZipBiased.step
  rw [h, hl]

theorem TryZipBiased.step_rerr {ε α β : Type} (l : TryTrace ε α)
    (r : TryTrace ε β) (s : ZipState α) (x : α) (e : ε)
    (h : s.left_poll = .ready (some x))
    (hr : r s.rpos = .ready (some (.error e))) :
    TryZipBiased.step l r s =
      (.ready (some (.error e)), ⟨s.lpos, s.rpos + 1, .ready (some x)⟩) := by
  unfold TryZipBiased.step TryZipBiased.pollRight
  rw [h, hr]

theorem TryZipBiased.step_lok_rerr {ε α β : Type} (l : TryTrace ε α)
    (r : TryTrace ε β) (s : ZipState α) (x : α) (e : ε)
    (h : s.left_poll = .pending) (hl : l s.lpos = .ready (some (.ok x)))
    (hr : r s.rpos = .ready (some (.error e))) :
    TryZipBiased.step l r s =
      (.ready (some (.error e)), ⟨s.lpos + 1, s.rpos + 1, .ready (some x)⟩) := by
  unfold TryZipBiased.step TryZipBiased.pollRight
  rw [h, hl]
  simp only
  rw [show (⟨s.lpos + 1, s.rpos, .ready (some x)⟩ : ZipState α).rpos = s.rpos
    from rfl, hr]

theorem TryZipBiased.runState_frozen_tzb {ε α β : Type} (l : TryTrace ε α)
    (r : TryTrace ε β) (n : Nat)
    (h : (TryZipBiased.runState l r n).left_poll = .ready none) :
    ∀ d, TryZipBiased.runState l r (n + d) = TryZipBiased.runState l r n := by
  intro d
  induction d with
  | zero => rfl
  | succ d ih =>
    show (TryZipBiased.step l r (TryZipBiased.runState l r (n + d))).2 = _
    rw [ih, TryZipBiased.step_slotNone_try l r _ h]

theorem TryZipBiased.out_slotNone_try {ε α β : Type} (l : TryTrace ε α)
    (r : TryTrace ε β) (n : Nat)
    (h : (TryZipBiased.runState l r n).left_poll = .ready none) :
    ∀ m, n ≤ m → TryZipBiased.out l r m = .ready none := by
  intro m hm
  obtain ⟨d, rfl⟩ := Nat.exists_eq_add_of_le hm
  unfold TryZipBiased.out
  rw [TryZipBiased.runState_frozen_tzb l r n h d, TryZipBiased.step_slotNone_try l r _ h]

theorem TryZipBiased.step_none_slot {ε α β : Type} (l : TryTrace ε α)
    (r : TryTrace ε β) (s s2 : ZipState α)
    (h : TryZipBiased.step l r s = (.ready none, s2)) :
    s2.left_poll = .ready none := by
  unfold TryZipBiased.step at h
  cases hsl : s.left_poll with
  | pending =>
    rw [hsl] at h
    cases hl : l s.lpos with
    | pending => rw [hl] at h; exact absurd (congrArg Prod.fst h) (by simp)
    | ready w =>
      cases w with
      | none =>
        rw [hl, Prod.mk.injEq] at h
        rw [← h.2]
      | some res =>
        cases res with
        | error e => rw [hl] at h; exact absurd (congrArg Prod.fst h) (by simp)
        | ok x =>
          rw [hl] at h
          unfold TryZipBiased.pollRight at h
          dsimp only at h
          cases hr : r s.rpos with
          | pending => rw [hr] at h; exact absurd (congrArg Prod.fst h) (by simp)
          | ready w2 =>
            cases w2 with
            | none => rw [hr, Prod.mk.injEq] at h; rw [← h.2]
            | some res2 =>
              cases res2 with
              | ok y => rw [hr] at h; exact absurd (congrArg Prod.fst h) (by simp)
              | error e =>
                rw [hr] at h; exact absurd (congrArg Prod.fst h) (by simp)
  | ready w =>
    cases w with
    | none =>
      rw [hsl, Prod.mk.injEq] at h
      rw [← h.2, hsl]
    | some x =>
      rw [hsl] at h
      unfold TryZipBiased.pollRight at h
      dsimp only at h
      cases hr : r s.rpos with
      | pending => rw [hr] at h; exact absurd (congrArg Prod.fst h) (by simp)
      | ready w2 =>
        cases w2 with
        | none => rw [hr, Prod.mk.injEq] at h; rw [← h.2]
        | some res2 =>
          cases res2 with
          | ok y => rw [hr] at h; exact absurd (congrArg Prod.fst h) (by simp)
          | error e =>
            rw [hr] at h; exact absurd (congrArg Prod.fst h) (by simp)

theorem TryZipBiased.none_forever_tzb {ε α β : Type} (l : TryTrace ε α)
    (r : TryTrace ε β) (n m : Nat) (h : TryZipBiased.out l r n = .ready none)
    (hnm : n ≤ m) : TryZipBiased.out l r m = .ready none := by
  rcases Nat.eq_or_lt_of_le hnm with rfl | hlt
  · exact h
  have hpair : TryZipBiased.step l r (TryZipBiased.runState l r n) =
      (TryZipBiased.out l r n, TryZipBiased.runState l r (n + 1)) := rfl
  rw [h] at hpair
  exact TryZipBiased.out_slotNone_try l r (n + 1)
    (TryZipBiased.step_none_slot l r _ _ hpair) m hlt

theorem TryZipBiased.step_rpos_advance_try {ε α β : Type} (l : TryTrace ε α)
    (r : TryTrace ε β) (s : ZipState α)
    (h : (TryZipBiased.step l r s).2.rpos ≠ s.rpos) :
    (∃ x, s.left_poll = .ready (some x)) ∨
      (s.left_poll = .pending ∧ ∃ x, l s.lpos = .ready (some (.ok x))) := by
  cases hsl : s.left_poll with
  | pending =>
    cases hl : l s.lpos with
    | pending =>
      exfalso
      apply h
      unfold TryZipBiased.step
      rw [hsl, hl]
    | ready w =>
      cases w with
      | none =>
        exfalso
        apply h
        unfold TryZipBiased.step
        rw [hsl, hl]
      | some res =>
        cases res with
        | error e =>
          exfalso
          apply h
          rw [TryZipBiased.step_lerr l r s e hsl hl]
        | ok x => exact Or.inr ⟨rfl, x, rfl⟩
  | ready w =>
    cases w with
    | none =>
      exfalso
      apply h
      rw [TryZipBiased.step_slotNone_try l r s hsl]
    | some x => exact Or.inl ⟨x, rfl⟩

theorem TryZipBiased.left_empty_try {ε α β : Type} (l : TryTrace ε α)
    (r : TryTrace ε β) (h : l 0 = .ready none) :
    ∀ n, TryZipBiased.out l r n = .ready none ∧
      (TryZipBiased.runState l r n).rpos = 0 := by
  have h1 : TryZipBiased.runState l r 1 = ⟨1, 0, .ready none⟩ := by
    show (TryZipBiased.step l r ⟨0, 0, .pending⟩).2 = _
    unfold TryZipBiased.step
    simp only
    rw [show l (0 : Nat) = .ready none from h]
  have hfrozen : ∀ d, TryZipBiased.runState l r (1 + d) = ⟨1, 0, .ready none⟩ := by
    intro d
    rw [TryZipBiased.runState_frozen_tzb l r 1 (by rw [h1]) d, h1]
  intro n
  cases n with
  | zero =>
    refine ⟨?_, rfl⟩
    unfold TryZipBiased.out
    show (TryZipBiased.step l r ⟨0, 0, .pending⟩).1 = _
    unfold TryZipBiased.step
    simp only
    rw [show l (0 : Nat) = .ready none from h]
  | succ n =>
    have hn : TryZipBiased.runState l r (n + 1) = ⟨1, 0, .ready none⟩ := by
      rw [show n + 1 = 1 + n by omega]
      exact hfrozen n
    refine ⟨?_, by rw [hn]⟩
    unfold TryZipBiased.out
    rw [hn, TryZipBiased.step_slotNone_try l r _ rfl]

theorem TryZipBiased.step_err_src {ε α β : Type} (l : TryTrace ε α)
    (r : TryTrace ε β) (s s2 : ZipState α) (e : ε)
    (h : TryZipBiased.step l r s = (.ready (some (.error e)), s2)) :
    l s.lpos = .ready (some (.error e)) ∨
      r s.rpos = .ready (some (.error e)) := by
  unfold TryZipBiased.step at h
  cases hsl : s.left_poll with
  | pending =>
    rw [hsl] at h
    cases hl : l s.lpos with
    | pending => rw [hl] at h; exact absurd (congrArg Prod.fst h) (by simp)
    | ready w =>
      cases w with
      | none => rw [hl] at h; exact absurd (congrArg Prod.fst h) (by simp)
      | some res =>
        cases res with
        | error e2 =>
          rw [hl, Prod.mk.injEq] at h
          have he := h.1
          simp at he
          left
          rw [he]
        | ok x =>
          rw [hl] at h
          unfold TryZipBiased.pollRight at h
          dsimp only at h
          cases hr : r s.rpos with
          | pending => rw [hr] at h; exact absurd (congrArg Prod.fst h) (by simp)
          | ready w2 =>
            cases w2 with
            | none => rw [hr] at h; exact absurd (congrArg Prod.fst h) (by simp)
            | some res2 =>
              cases res2 with
              | ok y => rw [hr] at h; exact absurd (congrArg Prod.fst h) (by simp)
              | error e2 =>
                rw [hr, Prod.mk.injEq] at h
                have he := h.1
                simp at he
                right
                rw [he]
  | ready w =>
    cases w with
    | none => rw [hsl] at h; exact absurd (congrArg Prod.fst h) (by simp)
    | some x =>
      rw [hsl] at h
      unfold TryZipBiased.pollRight at h
      dsimp only at h
      cases hr : r s.rpos with
      | pending => rw [hr] at h; exact absurd (congrArg Prod.fst h) (by simp)
      | ready w2 =>
        cases w2 with
        | none => rw [hr] at h; exact absurd (congrArg Prod.fst h) (by simp)
        | some res2 =>
          cases res2 with
          | ok y => rw [hr] at h; exact absurd (congrArg Prod.fst h) (by simp)
          | error e2 =>
            rw [hr, Prod.mk.injEq] at h
            have he := h.1
            simp at he
            right
            rw [he]

/-! ### Claim theorems -/

/-- Claim C2: for TryExpand, whenever the termination flag is still clear and
the upstream reports Exhausted or a failed item, that terminal event is
forwarded by that same poll and the flag is set; and once the flag is set the
whole state is frozen forever (so the flag is monotonic and the upstream
cursor never moves again, i.e. the upstream is not queried) and every later
poll returns Exhausted. -/
theorem claim_C2_tryExpand_termination {ε α : Type} (u : TryTrace ε α)
    (n : Nat) :
    ((TryExpand.runState u n).terminated = false →
      (u (TryExpand.runState u n).pos = .ready none ∨
        ∃ e, u (TryExpand.runState u n).pos = .ready (some (.error e))) →
      TryExpand.out u n = u (TryExpand.runState u n).pos ∧
        (TryExpand.runState u (n + 1)).terminated = true) ∧
    ((TryExpand.runState u n).terminated = true →
      ∀ m, n ≤ m → TryExpand.runState u m = TryExpand.runState u n ∧
        TryExpand.out u m = .ready none) := by
  constructor
  · intro hterm hu
    have hout : TryExpand.out u n = u (TryExpand.runState u n).pos := by
      unfold TryExpand.out
      rw [TryExpand.step_of_not_term u _ hterm]
      rcases hu with hu | ⟨e, hu⟩
      · rw [hu]
      · rw [hu]
    refine ⟨hout, ?_⟩
    rcases hu with hu | ⟨e, hu⟩
    · exact TryExpand.out_none_term u n (by rw [hout, hu])
    · exact TryExpand.out_err_term u n e (by rw [hout, hu])
  · intro hterm m hm
    obtain ⟨d, rfl⟩ := Nat.exists_eq_add_of_le hm
    exact ⟨TryExpand.runState_frozen u n hterm d,
      TryExpand.out_eventually_none u n (n + d) hterm (by omega)⟩

/-- Witness for C2 on the immediately exhausted upstream. -/
theorem claim_C2_witness :
    (TryExpand.out (fun _ => (.ready none : Poll (Option (Except Nat Nat)))) 0 =
        (fun _ => (.ready none : Poll (Option (Except Nat Nat))))
          (TryExpand.runState (fun _ => (.ready none : Poll (Option (Except Nat Nat)))) 0).pos ∧
      (TryExpand.runState
        (fun _ => (.ready none : Poll (Option (Except Nat Nat)))) 1).terminated = true) ∧
    (TryExpand.runState (fun _ => (.ready none : Poll (Option (Except Nat Nat)))) 2 =
        TryExpand.runState (fun _ => (.ready none : Poll (Option (Except Nat Nat)))) 1 ∧
      TryExpand.out (fun _ => (.ready none : Poll (Option (Except Nat Nat)))) 2 =
        .ready none) :=
  ⟨(claim_C2_tryExpand_termination (fun _ => .ready none) 0).1 rfl (Or.inl rfl),
   (claim_C2_tryExpand_termination (fun _ => .ready none) 1).2 rfl 2 (by omega)⟩

/-- Claim C3 counterexample: left produces an item, right is exhausted — the
very first ZipBiased poll returns Exhausted, not NotReady as claimed. -/
theorem claim_C3_counterexample :
    ZipBiased.out (traceOf [.ready (some 1)] .pending)
        (fun _ => (.ready none : Poll (Option Nat))) 0 = .ready none ∧
      (Poll.ready none : Poll (Option (Nat × Nat))) ≠ .pending :=
  ⟨rfl, by simp⟩

/-- Claim C3 (amended): when a left item is held and the right upstream
reports Exhausted, that poll returns Exhausted and the pending-left slot is
reset to empty (the held item is discarded); any poll that starts with an
empty slot queries the left upstream anew (its cursor advances). -/
theorem claim_C3_amended {α β : Type} (l : Trace α) (r : Trace β)
    (s : ZipState α) (x : α) :
    (s.left_poll = .ready (some x) → r s.rpos = .ready none →
      ZipBiased.step l r s = (.ready none, ⟨s.lpos, s.rpos + 1, .pending⟩)) ∧
    (s.left_poll = .pending → (ZipBiased.step l r s).2.lpos = s.lpos + 1) := by
  constructor
  · intro h hr
    rw [ZipBiased.step_slotSome_rready l r s x none h hr]
    rfl
  · exact ZipBiased.step_slotPending_lpos l r s

/-- Witness for the amended C3 at a concrete state. -/
theorem claim_C3_witness :
    ZipBiased.step (fun _ => (.pending : Poll (Option Nat)))
        (fun _ => (.ready none : Poll (Option Nat))) ⟨4, 7, .ready (some 1)⟩ =
      (.ready none, ⟨4, 8, .pending⟩) ∧
    (ZipBiased.step (fun _ => (.pending : Poll (Option Nat)))
        (fun _ => (.ready none : Poll (Option Nat))) ⟨4, 7, .pending⟩).2.lpos = 5 :=
  ⟨(claim_C3_amended (fun _ => .pending) (fun _ => .ready none)
      ⟨4, 7, .ready (some 1)⟩ 1).1 rfl rfl,
   (claim_C3_amended (fun _ => .pending) (fun _ => .ready none)
      ⟨4, 7, .pending⟩ 1).2 rfl⟩

/-- Claim C4 counterexample: left yields Ok 1, right fails — the failure is
returned, but the pending-left slot still holds the left item afterwards
(it is neither empty nor cleared, contradicting the claimed discard). -/
theorem claim_C4_counterexample :
    (TryZipBiased.step
        (traceOf [.ready (some (.ok 1))] .pending : TryTrace Nat Nat)
        (traceOf [.ready (some (.error 9))] .pending : TryTrace Nat Nat)
        ⟨0, 0, .pending⟩).1 = .ready (some (.error 9)) ∧
    (TryZipBiased.step
        (traceOf [.ready (some (.ok 1))] .pending : TryTrace Nat Nat)
        (traceOf [.ready (some (.error 9))] .pending : TryTrace Nat Nat)
        ⟨0, 0, .pending⟩).2.left_poll = .ready (some 1) ∧
    (Poll.ready (some 1) : Poll (Option Nat)) ≠ .pending ∧
    (Poll.ready (some 1) : Poll (Option Nat)) ≠ .ready none :=
  ⟨rfl, rfl, by simp, by simp⟩

/-- Claim C4 (amended): a failure observed from either side is returned
immediately by that poll; a left failure can only be observed while the slot
is empty and leaves it empty, while a right failure leaves the held
(or just-obtained) left item in the slot — it is retained, not discarded. -/
theorem claim_C4_amended {ε α β : Type} (l : TryTrace ε α) (r : TryTrace ε β)
    (s : ZipState α) (x : α) (e : ε) :
    (s.left_poll = .ready (some x) → r s.rpos = .ready (some (.error e)) →
      TryZipBiased.step l r s =
        (.ready (some (.error e)), ⟨s.lpos, s.rpos + 1, .ready (some x)⟩)) ∧
    (s.left_poll = .pending → l s.lpos = .ready (some (.error e)) →
      TryZipBiased.step l r s =
        (.ready (some (.error e)), ⟨s.lpos + 1, s.rpos, .pending⟩)) ∧
    (s.left_poll = .pending → l s.lpos = .ready (some (.ok x)) →
      r s.rpos = .ready (some (.error e)) →
      TryZipBiased.step l r s =
        (.ready (some (.error e)), ⟨s.lpos + 1, s.rpos + 1, .ready (some x)⟩)) :=
  ⟨fun h hr => TryZipBiased.step_rerr l r s x e h hr,
   fun h hl => TryZipBiased.step_lerr l r s e h hl,
   fun h hl hr => TryZipBiased.step_lok_rerr l r s x e h hl hr⟩

/-- Witness for the amended C4 at concrete states. -/
theorem claim_C4_witness :
    TryZipBiased.step (fun _ => (.pending : Poll (Option (Except Nat Nat))))
        (fun _ => (.ready (some (.error 9)) : Poll (Option (Except Nat Nat))))
        ⟨2, 3, .ready (some 1)⟩ =
      (.ready (some (.error 9)), ⟨2, 4, .ready (some 1)⟩) ∧
    TryZipBiased.step
        (fun _ => (.ready (some (.error 9)) : Poll (Option (Except Nat Nat))))
        (fun _ => (.pending : Poll (Option (Except Nat Nat))))
        ⟨2, 3, .pending⟩ =
      (.ready (some (.error 9)), ⟨3, 3, .pending⟩) ∧
    TryZipBiased.step
        (fun _ => (.ready (some (.ok 1)) : Poll (Option (Except Nat Nat))))
        (fun _ => (.ready (some (.error 9)) : Poll (Option (Except Nat Nat))))
        ⟨2, 3, .pending⟩ =
      (.ready (some (.error 9)), ⟨3, 4, .ready (some 1)⟩) :=
  ⟨(claim_C4_amended (fun _ => .pending) (fun _ => .ready (some (.error 9)))
      ⟨2, 3, .ready (some 1)⟩ 1 9).1 rfl rfl,
   (claim_C4_amended (fun _ => .ready (some (.error 9))) (fun _ => .pending)
      ⟨2, 3, .pending⟩ 1 9).2.1 rfl rfl,
   (claim_C4_amended (fun _ => .ready (some (.ok 1)))
      (fun _ => .ready (some (.error 9))) ⟨2, 3, .pending⟩ 1 9).2.2 rfl rfl rfl⟩

/-- Claim C8: for ZipBiased with a left item held, a NotReady right upstream
makes the poll return NotReady with the held item retained and the right
cursor advanced by the single right query; the left cursor is untouched in
any step that starts with a held item, so the next poll goes straight to the
right upstream without re-querying the left one. -/
theorem claim_C8_zipBiased_retain {α β : Type} (l : Trace α) (r : Trace β)
    (s : ZipState α) (x : α) (h : s.left_poll = .ready (some x)) :
    (r s.rpos = .pending →
      ZipBiased.step l r s =
        (.pending, ⟨s.lpos, s.rpos + 1, .ready (some x)⟩)) ∧
    (ZipBiased.step l r s).2.lpos = s.lpos :=
  ⟨fun hr => ZipBiased.step_slotSome_rpending l r s x h hr,
   ZipBiased.step_slotSome_lpos l r s x h⟩

/-- Witness for C8 at a concrete state. -/
theorem claim_C8_witness :
    ZipBiased.step (fun _ => (.pending : Poll (Option Nat)))
        (fun _ => (.pending : Poll (Option Nat))) ⟨0, 0, .ready (some 1)⟩ =
      (.pending, ⟨0, 1, .ready (some 1)⟩) ∧
    (ZipBiased.step (fun _ => (.pending : Poll (Option Nat)))
        (fun _ => (.pending : Poll (Option Nat)))
        ⟨0, 0, .ready (some 1)⟩).2.lpos = 0 :=
  ⟨(claim_C8_zipBiased_retain (fun _ => .pending) (fun _ => .pending)
      ⟨0, 0, .ready (some 1)⟩ 1 rfl).1 rfl,
   (claim_C8_zipBiased_retain (fun _ => .pending) (fun _ => .pending)
      ⟨0, 0, .ready (some 1)⟩ 1 rfl).2⟩

/-- Claim C5 counterexample: upstream produces 1, then exhausts, then is
NotReady; the third poll happens while the upstream reports NotReady and an
item (1) was produced earlier, yet Expand returns Exhausted, not
Produced 1 and not NotReady. -/
theorem claim_C5_counterexample :
    Expand.out (traceOf [.ready (some 1), .ready none] .pending) 0 =
        .ready (some 1) ∧
    traceOf [.ready (some 1), .ready none] (.pending : Poll (Option Nat)) 2 =
        .pending ∧
    Expand.out (traceOf [.ready (some 1), .ready none] .pending) 2 =
        .ready none ∧
    (Poll.ready none : Poll (Option Nat)) ≠ .ready (some 1) ∧
    (Poll.ready none : Poll (Option Nat)) ≠ .pending :=
  ⟨rfl, rfl, rfl, by simp, by simp⟩

/-- Claim C5 (amended): as long as the upstream has never reported Exhausted,
a poll made while the upstream reports NotReady returns Produced of the most
recently produced item if any item was ever produced, and NotReady otherwise;
and for an upstream producing a, b, c and then NotReady forever, the first
five downstream polls yield exactly a, b, c, c, c. -/
theorem claim_C5_amended {α : Type} (u : Trace α) (n : Nat) :
    ((∀ j, j < n → u j ≠ .ready none) → u n = .pending →
      Expand.out u n =
        match lastProduced u n with
        | some v => .ready (some v)
        | none => .pending) ∧
    (∀ a b c : α,
      (List.range 5).map
          (Expand.out
            (traceOf [.ready (some a), .ready (some b), .ready (some c)]
              .pending)) =
        [.ready (some a), .ready (some b), .ready (some c), .ready (some c),
          .ready (some c)]) := by
  constructor
  · intro hno hn
    rw [Expand.out_eq, hn, lastReady_of_no_exhaust u n hno]
    cases lastProduced u n <;> rfl
  · intro a b c
    rfl

/-- Witness for the amended C5. -/
theorem claim_C5_witness :
    Expand.out (traceOf [.ready (some 7)] .pending) 1 = .ready (some 7) ∧
    (List.range 5).map
        (Expand.out
          (traceOf
            [.ready (some 10), .ready (some 20), .ready (some 30)]
            .pending)) =
      [.ready (some 10), .ready (some 20), .ready (some 30), .ready (some 30),
        .ready (some 30)] :=
  ⟨(claim_C5_amended (traceOf [.ready (some 7)] .pending) 1).1
      (fun j hj => by
        have hj0 : j = 0 := by omega
        subst hj0
        simp [traceOf]) rfl,
   (claim_C5_amended (traceOf [.ready (some 7)] .pending) 1).2 10 20 30⟩

/-- Claim C6: each LatestReady poll drains the upstream while it is
immediately ready; a burst of m produced items followed by NotReady yields
Produced of the last burst item (NotReady for an empty burst), a burst
followed by Exhausted yields Exhausted, discarding the buffered item; and the
four-burst upstream 1..20 with NotReady gaps whose last burst ends in
Exhausted yields exactly 5, 10, 15 and then Exhausted. -/
theorem claim_C6_latestReady {α : Type} (u : Trace α) (f : Nat → α)
    (m pos fuel : Nat) :
    ((∀ j, pos ≤ j → j < pos + m → u j = .ready (some (f j))) →
      u (pos + m) = .pending → m < fuel → 0 < m →
      LatestReady.loop u fuel pos .pending =
        some (.ready (some (f (pos + m - 1))), pos + m + 1)) ∧
    (u pos = .pending → 0 < fuel →
      LatestReady.loop u fuel pos .pending = some (.pending, pos + 1)) ∧
    ((∀ j, pos ≤ j → j < pos + m → u j = .ready (some (f j))) →
      u (pos + m) = .ready none → m < fuel →
      LatestReady.loop u fuel pos .pending =
        some (.ready none, pos + m + 1)) ∧
    ((List.range 4).map
        (LatestReady.out
          (traceOf
            [.ready (some 1), .ready (some 2), .ready (some 3),
              .ready (some 4), .ready (some 5), .pending,
              .ready (some 6), .ready (some 7), .ready (some 8),
              .ready (some 9), .ready (some 10), .pending,
              .ready (some 11), .ready (some 12), .ready (some 13),
              .ready (some 14), .ready (some 15), .pending,
              .ready (some 16), .ready (some 17), .ready (some 18),
              .ready (some 19), .ready (some 20), .ready none] .pending) 30) =
      [some (.ready (some 5)), some (.ready (some 10)),
        some (.ready (some 15)), some (.ready none)]) := by
  refine ⟨?_, ?_, ?_, ?_⟩
  · intro hb hp hf hm
    rw [LatestReady.loop_burst_pending u f m pos fuel .pending hb hp hf,
      if_neg (by omega)]
  · intro hp hf
    match fuel, hf with
    | fuel + 1, _ => rw [LatestReady.loop, hp]
  · intro hb hp hf
    exact LatestReady.loop_burst_exhaust u f m pos fuel .pending hb hp hf
  · rfl

/-- Witness for C6 at a concrete two-item burst. -/
theorem claim_C6_witness :
    LatestReady.loop (traceOf [.ready (some 10), .ready (some 20)] .pending)
        3 0 .pending = some (.ready (some 20), 3) ∧
    LatestReady.loop (traceOf [.pending] (.pending : Poll (Option Nat)))
        3 0 .pending = some (.pending, 1) ∧
    LatestReady.loop
        (traceOf [.ready (some 10), .ready (some 20), .ready none] .pending)
        4 0 .pending = some (.ready none, 3) := by
  refine ⟨?_, ?_, ?_⟩
  · exact (claim_C6_latestReady
      (traceOf [.ready (some 10), .ready (some 20)] .pending)
      (fun j => 10 * j + 10) 2 0 3).1
      (fun j h1 h2 => by
        match j, h2 with
        | 0, _ => rfl
        | 1, _ => rfl
        | n + 2, h => exact absurd h (by omega))
      rfl (by omega) (by omega)
  · exact (claim_C6_latestReady (traceOf [.pending] .pending)
      (fun _ => 0) 0 0 3).2.1 rfl (by omega)
  · exact (claim_C6_latestReady
      (traceOf [.ready (some 10), .ready (some 20), .ready none] .pending)
      (fun j => 10 * j + 10) 2 0 4).2.2.1
      (fun j h1 h2 => by
        match j, h2 with
        | 0, _ => rfl
        | 1, _ => rfl
        | n + 2, h => exact absurd h (by omega))
      rfl (by omega)

/-- Claim C7: in ZipBiased and TryZipBiased the right upstream is queried in
a step only when a left item is already held or the left upstream produced an
item earlier in that same step; consequently, with an empty left sequence
every poll reports Exhausted and the right cursor stays at 0 forever — the
right upstream is never queried, however long (even infinite) its trace. -/
theorem claim_C7_right_needs_left {α β ε : Type}
    (l : Trace α) (r : Trace β) (tl : TryTrace ε α) (tr : TryTrace ε β) :
    (∀ s : ZipState α, (ZipBiased.step l r s).2.rpos ≠ s.rpos →
      (∃ x, s.left_poll = .ready (some x)) ∨
        (s.left_poll = .pending ∧ ∃ x, l s.lpos = .ready (some x))) ∧
    (∀ s : ZipState α, (TryZipBiased.step tl tr s).2.rpos ≠ s.rpos →
      (∃ x, s.left_poll = .ready (some x)) ∨
        (s.left_poll = .pending ∧ ∃ x, tl s.lpos = .ready (some (.ok x)))) ∧
    (l 0 = .ready none →
      ∀ n, ZipBiased.out l r n = .ready none ∧
        (ZipBiased.runState l r n).rpos = 0) ∧
    (tl 0 = .ready none →
      ∀ n, TryZipBiased.out tl tr n = .ready none ∧
        (TryZipBiased.runState tl tr n).rpos = 0) :=
  ⟨fun s => ZipBiased.step_rpos_advance l r s,
   fun s => TryZipBiased.step_rpos_advance_try tl tr s,
   fun h => ZipBiased.left_empty l r h,
   fun h => TryZipBiased.left_empty_try tl tr h⟩

/-- Witness for C7: an advancing right cursor at a held left item, and an
empty left sequence next to an infinite right sequence. -/
theorem claim_C7_witness :
    ((∃ x, (⟨0, 0, .ready (some 1)⟩ : ZipState Nat).left_poll =
        .ready (some x)) ∨
      ((⟨0, 0, .ready (some 1)⟩ : ZipState Nat).left_poll = .pending ∧
        ∃ x, (fun _ => (.pending : Poll (Option Nat))) 0 =
          .ready (some x))) ∧
    (ZipBiased.out (fun _ => (.ready none : Poll (Option Nat)))
        (fun _ => (.ready (some 2) : Poll (Option Nat))) 3 = .ready none ∧
      (ZipBiased.runState (fun _ => (.ready none : Poll (Option Nat)))
        (fun _ => (.ready (some 2) : Poll (Option Nat))) 3).rpos = 0) ∧
    (TryZipBiased.out (fun _ => (.ready none : Poll (Option (Except Nat Nat))))
        (fun _ => (.ready (some (.ok 2)) : Poll (Option (Except Nat Nat)))) 3 =
          .ready none ∧
      (TryZipBiased.runState
        (fun _ => (.ready none : Poll (Option (Except Nat Nat))))
        (fun _ => (.ready (some (.ok 2)) :
          Poll (Option (Except Nat Nat)))) 3).rpos = 0) :=
  ⟨(claim_C7_right_needs_left (fun _ => .pending) (fun _ => .pending)
      (fun _ => (.pending : Poll (Option (Except Nat Nat))))
      (fun _ => (.pending : Poll (Option (Except Nat Nat))))).1
      ⟨0, 0, .ready (some 1)⟩ (by decide),
   (claim_C7_right_needs_left (fun _ => .ready none)
      (fun _ => .ready (some 2))
      (fun _ => (.pending : Poll (Option (Except Nat Nat))))
      (fun _ => (.pending : Poll (Option (Except Nat Nat))))).2.2.1 rfl 3,
   (claim_C7_right_needs_left (fun _ => (.pending : Poll (Option Nat)))
      (fun _ => (.pending : Poll (Option Nat)))
      (fun _ => .ready none)
      (fun _ => .ready (some (.ok 2)))).2.2.2 rfl 3⟩

/-- Claim C10 counterexample: the upstream exhausts, then produces again,
then is NotReady; the poll made while the upstream reports NotReady comes
after an observed Exhausted yet returns the re-emitted item 5, not
Exhausted. -/
theorem claim_C10_counterexample :
    Expand.out (traceOf [.ready none, .ready (some 5)] .pending) 0 =
        .ready none ∧
    traceOf [.ready none, .ready (some 5)] (.pending : Poll (Option Nat)) 2 =
        .pending ∧
    Expand.out (traceOf [.ready none, .ready (some 5)] .pending) 2 =
        .ready (some 5) ∧
    (Poll.ready (some 5) : Poll (Option Nat)) ≠ .ready none :=
  ⟨rfl, rfl, rfl, by simp⟩

/-- Claim C10 (amended): Expand's remembered slot latches exhaustion — once
the upstream has reported Exhausted and has not produced any item since, a
later poll at which the upstream reports NotReady returns Exhausted (never
NotReady and never a re-emitted item). -/
theorem claim_C10_amended {α : Type} (u : Trace α) (j n : Nat)
    (hj : u j = .ready none) (hjn : j < n)
    (hmid : ∀ k, j < k → k < n → ∀ x, u k ≠ .ready (some x))
    (hn : u n = .pending) :
    Expand.out u n = .ready none := by
  rw [Expand.out_eq, hn, lastReady_none_latch u j n hj hjn hmid]

/-- Witness for the amended C10. -/
theorem claim_C10_witness :
    Expand.out (traceOf [.ready none] .pending) 1 =
      (.ready none : Poll (Option Nat)) :=
  claim_C10_amended (traceOf [.ready none] .pending) 0 1 rfl (by omega)
    (fun k h1 h2 x => absurd h2 (by omega)) rfl

/-- Claim C1 counterexample: TryLatestReady emits the upstream failure and
then, on the very next poll, emits a further item Ok 1 — it does not
permanently report Exhausted after its first failure. -/
theorem claim_C1_counterexample :
    TryLatestReady.out
        (traceOf [.ready (some (.error 7)), .ready (some (.ok 1))] .pending :
          TryTrace Nat Nat) 5 0 = some (.ready (some (.error 7))) ∧
    TryLatestReady.out
        (traceOf [.ready (some (.error 7)), .ready (some (.ok 1))] .pending :
          TryTrace Nat Nat) 5 1 = some (.ready (some (.ok 1))) ∧
    (some (Poll.ready (some (Except.ok 1))) :
        Option (Poll (Option (Except Nat Nat)))) ≠ some (.ready none) :=
  ⟨rfl, rfl, by simp⟩

/-- Claim C1 (amended): every failure item emitted by TryExpand,
TryLatestReady or TryZipBiased is the upstream's failure passed through
unchanged; TryExpand moreover returns Exhausted on every poll after emitting
its first failure, while TryLatestReady (and TryZipBiased) do not latch the
failure and may go on emitting items. -/
theorem claim_C1_amended {ε α β : Type} (u : TryTrace ε α) (e : ε) :
    (∀ n, TryExpand.out u n = .ready (some (.error e)) →
      u ((TryExpand.runState u n).pos) = .ready (some (.error e)) ∧
        ∀ m, n < m → TryExpand.out u m = .ready none) ∧
    (∀ fuel n, TryLatestReady.out u fuel n = some (.ready (some (.error e))) →
      ∃ j, u j = .ready (some (.error e))) ∧
    (∀ (l : TryTrace ε α) (r : TryTrace ε β) (s s2 : ZipState α),
      TryZipBiased.step l r s = (.ready (some (.error e)), s2) →
      l s.lpos = .ready (some (.error e)) ∨
        r s.rpos = .ready (some (.error e))) := by
  refine ⟨?_, ?_, ?_⟩
  · intro n h
    refine ⟨TryExpand.out_err_src u n e h, fun m hm => ?_⟩
    exact TryExpand.out_eventually_none u (n + 1) m
      (TryExpand.out_err_term u n e h) hm
  · intro fuel n h
    obtain ⟨pos, q, hrun, hloop, _⟩ := TryLatestReady.out_some_elim_try u fuel n _ h
    exact ⟨q - 1,
      TryLatestReady.loop_err_src u fuel pos .pending (by simp) e q hloop⟩
  · intro l r s s2 h
    exact TryZipBiased.step_err_src l r s s2 e h

/-- Witness for the amended C1 on concrete failing upstreams. -/
theorem claim_C1_witness :
    ((traceOf [.ready (some (.error 3))] .pending : TryTrace Nat Nat)
        ((TryExpand.runState
          (traceOf [.ready (some (.error 3))] .pending : TryTrace Nat Nat)
          0).pos) = .ready (some (.error 3)) ∧
      TryExpand.out
        (traceOf [.ready (some (.error 3))] .pending : TryTrace Nat Nat) 1 =
          .ready none) ∧
    (∃ j, (traceOf [.ready (some (.error 3))] .pending : TryTrace Nat Nat) j =
      .ready (some (.error 3))) ∧
    ((fun _ => (.ready (some (.error 3)) : Poll (Option (Except Nat Nat)))) 0 =
        .ready (some (.error 3)) ∨
      (fun _ => (.pending : Poll (Option (Except Nat Nat)))) 0 =
        .ready (some (.error 3))) := by
  refine ⟨?_, ?_, ?_⟩
  · have h := (claim_C1_amended
      (traceOf [.ready (some (.error 3))] .pending : TryTrace Nat Nat)
      3 (β := Nat)).1 0 rfl
    exact ⟨h.1, h.2 1 (by omega)⟩
  · exact (claim_C1_amended
      (traceOf [.ready (some (.error 3))] .pending : TryTrace Nat Nat)
      3 (β := Nat)).2.1 5 0 rfl
  · exact (claim_C1_amended
      (fun _ => (.pending : Poll (Option (Except Nat Nat)))) 3 (β := Nat)).2.2
      (fun _ => .ready (some (.error 3))) (fun _ => .pending)
      ⟨0, 0, .pending⟩ ⟨1, 0, .pending⟩ rfl

/-- Claim C9 counterexample: ZipBiased with left = one item then NotReady and
an exhausted right reports Exhausted on the first poll and NotReady on the
next one — Exhausted does not persist. -/
theorem claim_C9_counterexample :
    ZipBiased.out (traceOf [.ready (some 1)] .pending)
        (fun _ => (.ready none : Poll (Option Nat))) 0 = .ready none ∧
    ZipBiased.out (traceOf [.ready (some 1)] .pending)
        (fun _ => (.ready none : Poll (Option Nat))) 1 = .pending ∧
    (Poll.pending : Poll (Option (Nat × Nat))) ≠ .ready none :=
  ⟨rfl, rfl, by simp⟩

/-- Claim C9 (amended): after a poll has returned Exhausted, Expand (with a
fused upstream), TryExpand, LatestReady and TryLatestReady (fused upstream,
positive fuel) and TryZipBiased keep returning Exhausted forever; ZipBiased
keeps returning Exhausted forever when its pending-left slot has latched
left-side exhaustion, and in general (with a fused right upstream) each later
poll returns Exhausted or NotReady — it never emits an item again, but it
can report NotReady after an Exhausted caused by the right side exhausting
first. -/
theorem claim_C9_amended {α β ε : Type} :
    (∀ (u : Trace α) (n m : Nat), Fused u → Expand.out u n = .ready none →
      n ≤ m → Expand.out u m = .ready none) ∧
    (∀ (u : TryTrace ε α) (n m : Nat), TryExpand.out u n = .ready none →
      n ≤ m → TryExpand.out u m = .ready none) ∧
    (∀ (u : Trace α) (fuel n m : Nat), 1 ≤ fuel → Fused u →
      LatestReady.out u fuel n = some (.ready none) → n ≤ m →
      LatestReady.out u fuel m = some (.ready none)) ∧
    (∀ (u : TryTrace ε α) (fuel n m : Nat), 1 ≤ fuel → Fused u →
      TryLatestReady.out u fuel n = some (.ready none) → n ≤ m →
      TryLatestReady.out u fuel m = some (.ready none)) ∧
    (∀ (tl : TryTrace ε α) (tr : TryTrace ε β) (n m : Nat),
      TryZipBiased.out tl tr n = .ready none → n ≤ m →
      TryZipBiased.out tl tr m = .ready none) ∧
    (∀ (l : Trace α) (r : Trace β) (n m : Nat),
      (ZipBiased.runState l r n).left_poll = .ready none → n ≤ m →
      ZipBiased.out l r m = .ready none) ∧
    (∀ (l : Trace α) (r : Trace β) (n m : Nat), Fused r →
      ZipBiased.out l r n = .ready none → n ≤ m →
      (ZipBiased.out l r m = .ready none ∨ ZipBiased.out l r m = .pending)) := by
  refine ⟨?_, ?_, ?_, ?_, ?_, ?_, ?_⟩
  · intro u n m hF h hnm
    obtain ⟨j, hj, hju⟩ := Expand.out_none_src u n h
    exact Expand.out_of_none u m (hF j m (by omega) hju)
  · intro u n m h hnm
    rcases Nat.eq_or_lt_of_le hnm with rfl | hlt
    · exact h
    · exact TryExpand.out_eventually_none u (n + 1) m
        (TryExpand.out_none_term u n h) hlt
  · intro u fuel n m hfuel hF h hnm
    exact LatestReady.none_forever u fuel hfuel hF n m h hnm
  · intro u fuel n m hfuel hF h hnm
    exact TryLatestReady.none_forever_try u fuel hfuel hF n m h hnm
  · intro tl tr n m h hnm
    exact TryZipBiased.none_forever_tzb tl tr n m h hnm
  · intro l r n m hslot hnm
    exact ZipBiased.out_slotNone l r n hslot m hnm
  · intro l r n m hF h hnm
    exact ZipBiased.none_no_item_after l r hF n m h hnm

/-- Witness for the amended C9 on concrete exhausted upstreams. -/
theorem claim_C9_witness :
    Expand.out (fun _ => (.ready none : Poll (Option Nat))) 1 = .ready none ∧
    TryExpand.out (fun _ => (.ready none : Poll (Option (Except Nat Nat)))) 1 =
      .ready none ∧
    LatestReady.out (fun _ => (.ready none : Poll (Option Nat))) 1 1 =
      some (.ready none) ∧
    TryLatestReady.out
        (fun _ => (.ready none : Poll (Option (Except Nat Nat)))) 1 1 =
      some (.ready none) ∧
    TryZipBiased.out (fun _ => (.ready none : Poll (Option (Except Nat Nat))))
        (fun _ => (.ready none : Poll (Option (Except Nat Nat)))) 1 =
      .ready none ∧
    ZipBiased.out (fun _ => (.ready none : Poll (Option Nat)))
        (fun _ => (.pending : Poll (Option Nat))) 2 = .ready none ∧
    (ZipBiased.out (traceOf [.ready (some 1)] .pending)
        (fun _ => (.ready none : Poll (Option Nat))) 1 = .ready none ∨
      ZipBiased.out (traceOf [.ready (some 1)] .pending)
        (fun _ => (.ready none : Poll (Option Nat))) 1 = .pending) := by
  refine ⟨?_, ?_, ?_, ?_, ?_, ?_, ?_⟩
  · exact (claim_C9_amended (β := Nat) (ε := Nat)).1 (fun _ => .ready none)
      0 1 (fun _ _ _ _ => rfl) rfl (by omega)
  · exact (claim_C9_amended (α := Nat) (β := Nat) (ε := Nat)).2.1
      (fun _ => .ready none) 0 1 rfl (by omega)
  · exact (claim_C9_amended (β := Nat) (ε := Nat)).2.2.1
      (fun _ => .ready none) 1 0 1 (by omega) (fun _ _ _ _ => rfl) rfl
      (by omega)
  · exact (claim_C9_amended (α := Nat) (β := Nat) (ε := Nat)).2.2.2.1
      (fun _ => .ready none) 1 0 1 (by omega) (fun _ _ _ _ => rfl) rfl
      (by omega)
  · exact (claim_C9_amended (α := Nat) (β := Nat) (ε := Nat)).2.2.2.2.1
      (fun _ => .ready none) (fun _ => .ready none) 0 1 rfl (by omega)
  · exact (claim_C9_amended (β := Nat) (ε := Nat)).2.2.2.2.2.1
      (fun _ => .ready none) (fun _ => .pending) 1 2 rfl (by omega)
  · exact (claim_C9_amended (ε := Nat)).2.2.2.2.2.2
      (traceOf [.ready (some 1)] .pending) (fun _ => .ready none) 0 1
      (fun _ _ _ _ => rfl) rfl (by omega)
